import Mathlib

/-!
A shallow embedding of the delivery engine in `src/Ding_talk_every_day.py`:
the queue pop (`pop_first_url`), the image-URL validator
(`validate_image_url`), the message composer inside
`send_markdown_with_image`, the retry wrapper (`_send_with_retry`),
the two send operations, and the fan-out loop of `main`.

Python strings are modelled as `List Char`; files as `Option (List Char)`
(`none` = absent).  Randomness (jitter, pacing) is modelled by explicit
parameters and by recording, in traces, where the program sleeps.
-/

namespace DingPush

/-- Python strings are modelled as lists of characters. -/
abbrev Str := List Char

/-- Python `s.startswith(p)`. -/
def strStartsWith : Str → Str → Bool
  | _, [] => true
  | [], _ :: _ => false
  | c :: cs, d :: ds => c == d && strStartsWith cs ds

/-- Python `needle in hay` (substring containment). -/
def strContains : Str → Str → Bool
  | [], needle => strStartsWith [] needle
  | c :: t, needle => strStartsWith (c :: t) needle || strContains t needle

/-- Python `s.endswith(p)`. -/
def strEndsWith (s p : Str) : Bool := strStartsWith s.reverse p.reverse

/-- Python `s.lower()` (ASCII case folding, enough for the constants used). -/
def pyLower (s : Str) : Str := s.map Char.toLower

/-- The whitespace characters stripped by Python `str.strip()`. -/
def isPySpace (c : Char) : Bool :=
  c == ' ' || c == '\t' || c == '\n' || c == '\r' || c == '\x0b' || c == '\x0c'

/-- Python `s.strip()`: drop whitespace from both ends. -/
def pyStrip (s : Str) : Str :=
  ((s.dropWhile isPySpace).reverse.dropWhile isPySpace).reverse

/-- Split a file's text at newline characters, as iterating over a Python
text file (plus `strip`) does. -/
def splitNl : Str → List Str
  | [] => [[]]
  | c :: cs =>
    if c == '\n' then [] :: splitNl cs
    else
      match splitNl cs with
      | [] => [[c]]
      | l :: ls => (c :: l) :: ls

/-- Python `sep.join(parts)` for a one-character separator. -/
def joinWith (sep : Char) : List Str → Str
  | [] => []
  | [l] => l
  | l :: l' :: ls => l ++ sep :: joinWith sep (l' :: ls)

/-- The comprehension `[line.strip() for line in f if line.strip()]` of `pop_first_url`:
the non-empty trimmed lines of the file's text. -/
def linesOf (content : Str) : List Str :=
  ((splitNl content).map pyStrip).filter fun l => !l.isEmpty

/-- The two file-system effects `pop_first_url` performs after reading:
writing the temporary sibling file `file_path + ".tmp"` and the single
`os.replace` commit that renames it over the original. -/
inductive FileOp where
  | writeTemp (content : Str)
  | renameTempOverOriginal
  deriving DecidableEq

/-- The text written for the remaining lines: `'\n'.join(remaining) + '\n'`
when any line remains, and nothing (a zero-byte file) otherwise. -/
def newQueueContent (remaining : List Str) : Str :=
  if remaining.isEmpty then [] else joinWith '\n' remaining ++ ['\n']

/-- Operation `DingTalkBotEnhanced.pop_first_url`, over the queue file's state
(`none` = the file is absent).  Returns the popped line, the queue file's
state afterwards, and the file operations performed. -/
def pop_first_url (file : Option Str) : Option Str × Option Str × List FileOp :=
  match file with
  | none => (none, none, [])
  | some content =>
    match linesOf content with
    | [] => (none, some content, [])
    | current :: remaining =>
      (some current, some (newQueueContent remaining),
        [FileOp.writeTemp (newQueueContent remaining), FileOp.renameTempOverOriginal])

/-- Constant `WHITELIST_DOMAINS` of `DingTalkBotEnhanced`. -/
def WHITELIST_DOMAINS : List Str :=
  ["alicdn.com".data, "qiniucdn.com".data, "aliyuncs.com".data,
   "cdn.".data, "img.".data, "oss-".data, "yourcompany.com".data]

/-- Constant `BLOCKED_DOMAINS` of `DingTalkBotEnhanced`. -/
def BLOCKED_DOMAINS : List Str :=
  ["github.com".data, "raw.githubusercontent.com".data,
   "localhost".data, "127.0.0.1".data]

/-- Constant `SUPPORTED_IMAGE_FORMATS` of `DingTalkBotEnhanced`. -/
def SUPPORTED_IMAGE_FORMATS : List Str :=
  ["jpg".data, "jpeg".data, "png".data, "gif".data, "webp".data]

/-- Constant `ILLEGAL_CHARACTERS` of `DingTalkBotEnhanced`: space, pipe and the two
brace characters. -/
def ILLEGAL_CHARACTERS : List Char := [' ', '|', '\x7b', '\x7d']

/-- The scheme prefix required by the validator. -/
def HTTPS_SCHEME : Str := "https://".data

/-- Validator message for a non-HTTPS URL. -/
def MSG_SCHEME : Str := "❌ 非HTTPS协议（钉钉强制拦截HTTP）".data

/-- Validator message for a blocked domain. -/
def MSG_BLOCKED : Str := "❌ 域名被钉钉屏蔽（如GitHub Raw）".data

/-- Validator message for an unsupported image format. -/
def MSG_FORMAT : Str := "❌ 非标准图片格式（需.jpg/.png等）".data

/-- Validator message for illegal raw characters. -/
def MSG_ILLEGAL : Str := "❌ URL含非法字符（需URL编码）".data

/-- Validator message when all checks pass. -/
def MSG_OK : Str := "✅ URL校验通过".data

/-- The warning logged when the URL is not in the recommended whitelist. -/
def WARN_WHITELIST : Str := "⚠️ 域名未在推荐白名单中（可能无法显示）".data

/-- Test `any(block in url.lower() for block in BLOCKED_DOMAINS)`. -/
def blockedHit (url : Str) : Bool :=
  BLOCKED_DOMAINS.any fun b => strContains (pyLower url) b

/-- Test `any(domain in url for domain in WHITELIST_DOMAINS)` (case-sensitive). -/
def whitelistHit (url : Str) : Bool :=
  WHITELIST_DOMAINS.any fun d => strContains url d

/-- Test `re.search(r"\.(jpg|jpeg|png|gif|webp)$", url, re.IGNORECASE)`:
the URL, case-folded, ends with a dot and a supported extension (the `$`
anchor also matches just before one trailing newline). -/
def formatOk (url : Str) : Bool :=
  SUPPORTED_IMAGE_FORMATS.any fun ext =>
    strEndsWith (pyLower url) ('.' :: ext) ||
    strEndsWith (pyLower url) ('.' :: ext ++ ['\n'])

/-- Test `any(char in url for char in ILLEGAL_CHARACTERS)`. -/
def illegalHit (url : Str) : Bool :=
  ILLEGAL_CHARACTERS.any fun ch => url.any fun c => c == ch

/-- Operation `DingTalkBotEnhanced.validate_image_url`: result flag, result message,
and the warnings logged on the way (the whitelist check only warns). -/
def validate_image_url (url : Str) : Bool × Str × List Str :=
  if strStartsWith url HTTPS_SCHEME = false then (false, MSG_SCHEME, [])
  else if blockedHit url then (false, MSG_BLOCKED, [])
  else
    let warns := if whitelistHit url = false then [WARN_WHITELIST] else []
    if formatOk url = false then (false, MSG_FORMAT, warns)
    else if illegalHit url then (false, MSG_ILLEGAL, warns)
    else (true, MSG_OK, warns)

/-- CPython `s.replace(old, new)`, scanning left to right and replacing
non-overlapping occurrences; the `Nat` argument counts characters of a
just-matched occurrence that are still to be consumed without scanning. -/
def replaceAux (old new : Str) : Nat → Str → Str
  | 0, [] => if old.isEmpty then new else []
  | 0, c :: cs =>
    if old.isEmpty then new ++ c :: replaceAux old new 0 cs
    else if strStartsWith (c :: cs) old then new ++ replaceAux old new (old.length - 1) cs
    else c :: replaceAux old new 0 cs
  | _ + 1, [] => []
  | skip + 1, _ :: cs => replaceAux old new skip cs

/-- Python `s.replace(old, new)`. -/
def pyReplace (s old new : Str) : Str := replaceAux old new 0 s

/-- Constant `DEFAULT_IMAGE_PLACEHOLDER`, the string between brace characters naming IMAGE_URL. -/
def DEFAULT_IMAGE_PLACEHOLDER : Str := "\x7bIMAGE_URL\x7d".data

/-- Opening text of the appended Markdown image block
(`f"\n\n![监控图]({img_url})"` up to the URL). -/
def IMAGE_BLOCK_OPEN : Str := "\n\n![监控图](".data

/-- Closing text of the appended Markdown image block. -/
def IMAGE_BLOCK_CLOSE : Str := ")".data

/-- Step 2 of `send_markdown_with_image`: replace every occurrence of the
placeholder when present, otherwise append the fixed image block. -/
def compose (content img_url placeholder : Str) : Str :=
  if strContains content placeholder then pyReplace content placeholder img_url
  else content ++ IMAGE_BLOCK_OPEN ++ img_url ++ IMAGE_BLOCK_CLOSE

/-- The number of positions of `s` at which `p` occurs. -/
def occurCount (s p : Str) : Nat :=
  (List.range (s.length + 1)).countP fun i => strStartsWith (s.drop i) p

/-- One outcome of calling the underlying transport method: a dict result
with an `errcode`, a non-dict result, or a raised exception. -/
inductive TransportResult where
  | dictRes (errcode : Int)
  | nonDict
  | raised
  deriving DecidableEq

/-- Success test `isinstance(res, dict) and res.get("errcode") == 0`. -/
def isOkResult : TransportResult → Bool
  | TransportResult.dictRes 0 => true
  | _ => false

/-- Constant `MAX_RETRIES = 3`. -/
def MAX_RETRIES : Nat := 3

/-- Constant `INITIAL_RETRY_DELAY = 1` (seconds). -/
def INITIAL_RETRY_DELAY : Rat := 1

/-- The body of `_send_with_retry`'s loop: `retry` is the current attempt
index, the second argument the remaining iterations.  Returns the final
result, the number of transport invocations, and the attempt indices after
which the wrapper slept. -/
def sendAttempts (transport : Nat → TransportResult) : Nat → Nat → Bool × Nat × List Nat
  | _, 0 => (false, 0, [])
  | retry, fuel + 1 =>
    if isOkResult (transport retry) then (true, 1, [])
    else
      let rest := sendAttempts transport (retry + 1) fuel
      (rest.1, rest.2.1 + 1, (if retry < MAX_RETRIES - 1 then [retry] else []) ++ rest.2.2)

/-- Operation `DingTalkBotEnhanced._send_with_retry` over a stream of transport
outcomes (attempt `k` observes `transport k`). -/
def sendWithRetry (transport : Nat → TransportResult) : Bool × Nat × List Nat :=
  sendAttempts transport 0 MAX_RETRIES

/-- Backoff `INITIAL_RETRY_DELAY * (2 ** retry) + random.uniform(0, 1)`: the delay
slept after failed attempt `k`, for a given draw of jitters. -/
def retryDelay (jitter : Nat → Rat) (k : Nat) : Rat :=
  INITIAL_RETRY_DELAY * 2 ^ k + jitter k

/-- The keyword arguments `send_markdown_with_image` hands to
`_send_with_retry` for `bot.send_markdown`. -/
structure MdPayload where
  title : Str
  text : Str
  at_mobiles : Option (List Str)
  is_at_all : Bool
  deriving DecidableEq

/-- Operation `DingTalkBotEnhanced.send_markdown_with_image`: validate, compose,
then delegate to the retry wrapper.  Returns the result, the number of
transport invocations made, and the payload handed to the retry wrapper
(`none` when validation failed and no send was attempted). -/
def send_markdown_with_image (title content img_url placeholder : Str)
    (at_mobiles : Option (List Str)) (is_at_all : Bool)
    (transport : Nat → TransportResult) : Bool × Nat × Option MdPayload :=
  if (validate_image_url img_url).1 then
    let newContent := compose content img_url placeholder
    let r := sendWithRetry transport
    (r.1, r.2.1,
      some ⟨title, newContent, if is_at_all then none else at_mobiles, is_at_all⟩)
  else
    (false, 0, none)

/-- The keyword arguments `send_text` hands to `_send_with_retry` for
`bot.send_text`. -/
structure TextPayload where
  msg : Str
  at_mobiles : Option (List Str)
  is_at_all : Bool
  deriving DecidableEq

/-- Python truthiness of the `at_mobiles` argument (`None` and `[]` are
falsy). -/
def amTruthy : Option (List Str) → Bool
  | some (_ :: _) => true
  | _ => false

/-- Constant mention-all marker of `send_text`. -/
def AT_ALL_TOKEN : Str := "@所有人 ".data

/-- The `final_msg` computed by `send_text`. -/
def send_text_final_msg (msg : Str) (at_mobiles : Option (List Str))
    (is_at_all : Bool) : Str :=
  if is_at_all || amTruthy at_mobiles then
    (if is_at_all then AT_ALL_TOKEN
     else joinWith ' ' ((at_mobiles.getD []).map fun m => '@' :: m) ++ [' ']) ++ msg
  else msg

/-- Operation `DingTalkBotEnhanced.send_text`: prefix the message with mention markup
when requested, then delegate; `at_mobiles` and `is_at_all` are passed on
unchanged. -/
def send_text (msg : Str) (at_mobiles : Option (List Str)) (is_at_all : Bool)
    (transport : Nat → TransportResult) : Bool × Nat × TextPayload :=
  let r := sendWithRetry transport
  (r.1, r.2.1, ⟨send_text_final_msg msg at_mobiles is_at_all, at_mobiles, is_at_all⟩)

/-- What happens to one destination of `main`'s loop: its send returned
true, its send returned false, or the `try` block raised (e.g. the
`DingTalkBotEnhanced` constructor rejected the webhook). -/
inductive DestOutcome where
  | sendOk
  | sendFail
  | raiseErr
  deriving DecidableEq, BEq

/-- Observable events of one iteration of `main`'s destination loop. -/
inductive LoopEvent where
  | sendResult (ok : Bool)
  | errorLogged
  | paceSleep
  deriving DecidableEq, BEq

/-- Constant `PUSH_INTERVAL_MIN = 1` (seconds). -/
def PUSH_INTERVAL_MIN : Rat := 1

/-- Constant `PUSH_INTERVAL_MAX = 3` (seconds). -/
def PUSH_INTERVAL_MAX : Rat := 3

/-- The events of one iteration of `main`'s loop: on an exception the
handler logs and `continue`s (skipping the pacing sleep); otherwise the
iteration ends with `time.sleep(random.uniform(1, 3))`. -/
def destEvents : DestOutcome → List LoopEvent
  | DestOutcome.sendOk => [LoopEvent.sendResult true, LoopEvent.paceSleep]
  | DestOutcome.sendFail => [LoopEvent.sendResult false, LoopEvent.paceSleep]
  | DestOutcome.raiseErr => [LoopEvent.errorLogged]

/-- The event trace of the whole destination loop. -/
def loopTrace (outs : List DestOutcome) : List LoopEvent :=
  (outs.map destEvents).flatten

/-- Counter `success_count` accumulated by the loop. -/
def successCount (outs : List DestOutcome) : Nat :=
  outs.countP fun o => o == DestOutcome.sendOk

/-- Orchestrator `main`, from the popped URL and the outcome of `load_config` onwards:
`Except.error ()` models `load_config` raising (caught by the top-level
handler), `Except.ok outs` the validated list with each entry's loop
outcome.  Returns the process exit code and the final `success_count`. -/
def mainRun (img : Option Str) (cfg : Except Unit (List DestOutcome)) : Nat × Nat :=
  if (img.getD []).isEmpty then (1, 0)
  else
    match cfg with
    | Except.error _ => (1, 0)
    | Except.ok cfgList =>
      if cfgList.isEmpty then (1, 0)
      else (0, successCount cfgList)

/-! ### Basic facts about the string model -/

theorem strStartsWith_iff (p s : Str) : strStartsWith s p = true ↔ ∃ t, s = p ++ t := by
  induction p generalizing s with
  | nil => simp [strStartsWith]
  | cons d ds ih =>
    cases s with
    | nil => simp [strStartsWith]
    | cons c cs =>
      simp only [strStartsWith, Bool.and_eq_true, beq_iff_eq, ih, List.cons_append,
        List.cons.injEq]
      constructor
      · rintro ⟨rfl, t, rfl⟩
        exact ⟨t, rfl, rfl⟩
      · rintro ⟨t, rfl, rfl⟩
        exact ⟨rfl, t, rfl⟩

theorem strStartsWith_append (p t : Str) : strStartsWith (p ++ t) p = true :=
  (strStartsWith_iff p (p ++ t)).mpr ⟨t, rfl⟩

theorem strContains_iff (s n : Str) : strContains s n = true ↔ ∃ a b, s = a ++ n ++ b := by
  induction s with
  | nil =>
    simp only [strContains, strStartsWith_iff]
    constructor
    · rintro ⟨t, ht⟩
      exact ⟨[], t, ht⟩
    · rintro ⟨a, b, h⟩
      rcases List.append_eq_nil.mp h.symm with ⟨h1, h2⟩
      rcases List.append_eq_nil.mp h1 with ⟨rfl, rfl⟩
      exact ⟨b, h2.symm⟩
  | cons c cs ih =>
    simp only [strContains, Bool.or_eq_true, strStartsWith_iff, ih]
    constructor
    · rintro (⟨t, ht⟩ | ⟨a, b, rfl⟩)
      · exact ⟨[], t, by simpa using ht⟩
      · exact ⟨c :: a, b, rfl⟩
    · rintro ⟨a, b, h⟩
      cases a with
      | nil => exact Or.inl ⟨b, by simpa using h⟩
      | cons a0 at' =>
        rcases List.cons.injEq .. ▸ h with ⟨rfl, h2⟩
        exact Or.inr ⟨at', b, h2⟩

theorem strContains_of_split (a n b : Str) : strContains (a ++ n ++ b) n = true :=
  (strContains_iff _ n).mpr ⟨a, b, rfl⟩

/-! ### Facts about line splitting, stripping and joining -/

theorem splitNl_ne_nil (s : Str) : splitNl s ≠ [] := by
  induction s with
  | nil => simp [splitNl]
  | cons c cs ih =>
    simp only [splitNl]
    cases hs : splitNl cs with
    | nil => split <;> simp
    | cons l ls => split <;> simp

theorem splitNl_no_nl (s : Str) : ∀ l ∈ splitNl s, '\n' ∉ l := by
  induction s with
  | nil =>
    intro l hl
    simp only [splitNl, List.mem_singleton] at hl
    simp [hl]
  | cons c cs ih =>
    intro l hl
    simp only [splitNl] at hl
    rcases hs : splitNl cs with _ | ⟨m, ms⟩
    · exact absurd hs (splitNl_ne_nil cs)
    · rw [hs] at hl
      by_cases h : c = '\n'
      · rw [if_pos (by simpa using h)] at hl
        rcases List.mem_cons.mp hl with rfl | hl2
        · simp
        · exact ih l (hs ▸ hl2)
      · rw [if_neg (by simpa using h)] at hl
        rcases List.mem_cons.mp hl with rfl | hl2
        · intro hmem
          rcases List.mem_cons.mp hmem with h1 | h2
          · exact h h1.symm
          · exact ih m (hs ▸ List.mem_cons_self m ms) h2
        · exact ih l (hs ▸ List.mem_cons_of_mem m hl2)

theorem splitNl_cons_nl (a : Str) : ∀ b : Str, '\n' ∉ a →
    splitNl (a ++ '\n' :: b) = a :: splitNl b := by
  induction a with
  | nil => intro b _; simp [splitNl]
  | cons c ct ih =>
    intro b hna
    have hc : ¬ (c == '\n') = true := by
      simp only [beq_iff_eq]
      exact fun h => hna (h ▸ List.mem_cons_self c ct)
    have hct : '\n' ∉ ct := fun h => hna (List.mem_cons_of_mem c h)
    show splitNl (c :: (ct ++ '\n' :: b)) = (c :: ct) :: splitNl b
    simp only [splitNl]
    rw [if_neg hc, ih b hct]

theorem splitNl_join (rest : List Str) : ∀ r : Str, (∀ l ∈ r :: rest, '\n' ∉ l) →
    splitNl (joinWith '\n' (r :: rest) ++ ['\n']) = (r :: rest) ++ [[]] := by
  induction rest with
  | nil =>
    intro r h
    have : joinWith '\n' [r] = r := rfl
    rw [this, splitNl_cons_nl r [] (h r (List.mem_cons_self r []))]
    rfl
  | cons r2 rs ih =>
    intro r h
    have hj : joinWith '\n' (r :: r2 :: rs) ++ ['\n']
        = r ++ '\n' :: (joinWith '\n' (r2 :: rs) ++ ['\n']) := by
      simp [joinWith]
    rw [hj, splitNl_cons_nl r _ (h r (List.mem_cons_self r _)),
      ih r2 fun l hl => h l (List.mem_cons_of_mem r hl)]
    rfl

theorem dropWhile_head_false (p : Char → Bool) :
    ∀ (l : Str) (c : Char) (cs : Str), l.dropWhile p = c :: cs → p c = false := by
  intro l
  induction l with
  | nil => intro c cs h; simp [List.dropWhile] at h
  | cons a t ih =>
    intro c cs h
    cases hp : p a with
    | true =>
      rw [List.dropWhile_cons, if_pos (by simp [hp])] at h
      exact ih c cs h
    | false =>
      rw [List.dropWhile_cons, if_neg (by simp [hp])] at h
      cases h
      exact hp

theorem mem_of_mem_dropWhile (p : Char → Bool) (l : Str) (c : Char)
    (h : c ∈ l.dropWhile p) : c ∈ l := by
  have h2 := List.takeWhile_append_dropWhile p l
  rw [← h2]
  exact List.mem_append_right _ h

theorem mem_of_mem_pyStrip (s : Str) (c : Char) (h : c ∈ pyStrip s) : c ∈ s := by
  unfold pyStrip at h
  rw [List.mem_reverse] at h
  have h1 := mem_of_mem_dropWhile _ _ _ h
  rw [List.mem_reverse] at h1
  exact mem_of_mem_dropWhile _ _ _ h1

theorem dropWhile_eq_self_of_head (p : Char → Bool) (l : Str)
    (h : ∀ c cs, l = c :: cs → p c = false) : l.dropWhile p = l := by
  cases l with
  | nil => rfl
  | cons a t =>
    have := h a t rfl
    rw [List.dropWhile_cons, if_neg (by simp [this])]

theorem pyStrip_idem (s : Str) : pyStrip (pyStrip s) = pyStrip s := by
  set A := s.dropWhile isPySpace with hA
  set B := A.reverse.dropWhile isPySpace with hB
  have hps : pyStrip s = B.reverse := rfl
  have hBhead : ∀ c cs, B = c :: cs → isPySpace c = false := fun c cs h =>
    dropWhile_head_false isPySpace A.reverse c cs (hB ▸ h)
  have hRhead : ∀ c cs, B.reverse = c :: cs → isPySpace c = false := by
    intro c cs h
    have hdecomp := List.takeWhile_append_dropWhile isPySpace A.reverse
    have hA2 : A = B.reverse ++ (A.reverse.takeWhile isPySpace).reverse := by
      have h3 := congrArg List.reverse hdecomp
      rw [List.reverse_append, List.reverse_reverse] at h3
      exact h3.symm
    rw [h] at hA2
    have hA3 : s.dropWhile isPySpace
        = c :: (cs ++ (A.reverse.takeWhile isPySpace).reverse) := by
      rw [← hA]
      simpa using hA2
    exact dropWhile_head_false isPySpace s c _ hA3
  rw [hps]
  show ((B.reverse.dropWhile isPySpace).reverse.dropWhile isPySpace).reverse = B.reverse
  rw [dropWhile_eq_self_of_head isPySpace B.reverse hRhead, List.reverse_reverse,
    dropWhile_eq_self_of_head isPySpace B hBhead]

theorem mem_linesOf (content l : Str) (h : l ∈ linesOf content) :
    pyStrip l = l ∧ l ≠ [] ∧ '\n' ∉ l := by
  unfold linesOf at h
  rw [List.mem_filter] at h
  obtain ⟨hmem, hne⟩ := h
  rw [List.mem_map] at hmem
  obtain ⟨l0, hl0, rfl⟩ := hmem
  refine ⟨pyStrip_idem l0, ?_, ?_⟩
  · simpa using hne
  · intro hm
    exact splitNl_no_nl content l0 hl0 (mem_of_mem_pyStrip _ _ hm)

theorem linesOf_newQueueContent (rest : List Str)
    (h : ∀ l ∈ rest, pyStrip l = l ∧ l ≠ [] ∧ '\n' ∉ l) :
    linesOf (newQueueContent rest) = rest := by
  cases rest with
  | nil => decide
  | cons r rs =>
    have hjoin : newQueueContent (r :: rs) = joinWith '\n' (r :: rs) ++ ['\n'] := by
      simp [newQueueContent]
    rw [hjoin]
    unfold linesOf
    rw [splitNl_join rs r fun l hl => (h l hl).2.2]
    rw [List.map_append, List.filter_append]
    have hmap : (r :: rs).map pyStrip = r :: rs := by
      calc (r :: rs).map pyStrip = (r :: rs).map id :=
            List.map_congr_left fun l hl => (h l hl).1
        _ = r :: rs := List.map_id _
    rw [hmap]
    have hfil : (r :: rs).filter (fun l => !l.isEmpty) = r :: rs := by
      apply List.filter_eq_self.mpr
      intro l hl
      simpa using (h l hl).2.1
    rw [hfil]
    have htail : ([([] : Str)].map pyStrip).filter (fun l => !l.isEmpty) = [] := by decide
    rw [htail, List.append_nil]

/-! ### Facts about `replaceAux` (Python `str.replace`) -/

theorem isEmpty_false_of_ne_nil {α : Type} (l : List α) (h : l ≠ []) : l.isEmpty = false := by
  cases l with
  | nil => exact absurd rfl h
  | cons c cs => rfl

theorem replaceAux_nil (old new : Str) (hold : old ≠ []) :
    replaceAux old new 0 [] = [] := by
  simp [replaceAux, isEmpty_false_of_ne_nil old hold]

theorem replaceAux_skip (old new : Str) (hold : old ≠ []) :
    ∀ (s : Str) (k : Nat), replaceAux old new k s = replaceAux old new 0 (s.drop k) := by
  intro s
  induction s with
  | nil =>
    intro k
    cases k with
    | zero => rfl
    | succ k' => simp [replaceAux, isEmpty_false_of_ne_nil old hold]
  | cons c cs ih =>
    intro k
    cases k with
    | zero => rfl
    | succ k' =>
      calc replaceAux old new (k' + 1) (c :: cs) = replaceAux old new k' cs := by
            simp [replaceAux]
        _ = replaceAux old new 0 (cs.drop k') := ih k'
        _ = replaceAux old new 0 ((c :: cs).drop (k' + 1)) := rfl

theorem replaceAux_pos (old new : Str) (hold : old ≠ []) (c : Char) (cs : Str)
    (h : strStartsWith (c :: cs) old = true) :
    replaceAux old new 0 (c :: cs)
      = new ++ replaceAux old new 0 ((c :: cs).drop old.length) := by
  have h1 : replaceAux old new 0 (c :: cs)
      = new ++ replaceAux old new (old.length - 1) cs := by
    simp [replaceAux, isEmpty_false_of_ne_nil old hold, h]
  rw [h1, replaceAux_skip old new hold cs (old.length - 1)]
  congr 1
  cases old with
  | nil => exact absurd rfl hold
  | cons o ot => simp

theorem replaceAux_neg (old new : Str) (hold : old ≠ []) (c : Char) (cs : Str)
    (h : strStartsWith (c :: cs) old = false) :
    replaceAux old new 0 (c :: cs) = c :: replaceAux old new 0 cs := by
  simp [replaceAux, isEmpty_false_of_ne_nil old hold, h]

theorem replaceAux_of_not_contains (old new : Str) :
    ∀ s : Str, strContains s old = false → replaceAux old new 0 s = s := by
  intro s
  induction s with
  | nil =>
    intro h
    cases old with
    | nil => simp [strContains, strStartsWith] at h
    | cons o ot => exact replaceAux_nil _ new (by simp)
  | cons c cs ih =>
    intro h
    simp only [strContains] at h
    rcases Bool.or_eq_false_iff.mp h with ⟨ha, hb⟩
    have hold : old ≠ [] := by
      cases old with
      | nil => exact absurd ha (by simp [strStartsWith])
      | cons o ot => simp
    rw [replaceAux_neg old new hold c cs ha, ih hb]

theorem replaceAux_transfer (old new : Str) (hold : old ≠ []) (n0 : Char) (ntl : Str)
    (hn : new = n0 :: ntl) :
    ∀ (N : Nat) (s w t : Str), s.length ≤ N → n0 ∉ w →
      replaceAux old new 0 s = w ++ t → ∃ u, s = w ++ u := by
  intro N
  induction N with
  | zero =>
    intro s w t hlen hw heq
    have hs : s = [] := List.length_eq_zero.mp (Nat.le_zero.mp hlen)
    subst hs
    rw [replaceAux_nil old new hold] at heq
    rcases List.append_eq_nil.mp heq.symm with ⟨rfl, rfl⟩
    exact ⟨[], rfl⟩
  | succ N ih =>
    intro s w t hlen hw heq
    cases s with
    | nil =>
      rw [replaceAux_nil old new hold] at heq
      rcases List.append_eq_nil.mp heq.symm with ⟨rfl, rfl⟩
      exact ⟨[], rfl⟩
    | cons c cs =>
      cases hsw : strStartsWith (c :: cs) old with
      | true =>
        rw [replaceAux_pos old new hold c cs hsw] at heq
        cases w with
        | nil => exact ⟨c :: cs, rfl⟩
        | cons w0 wt =>
          have h0 : n0 = w0 := by
            have hh := congrArg List.head? heq
            rw [hn] at hh
            simpa using hh
          exact absurd (h0 ▸ List.mem_cons_self w0 wt) hw
      | false =>
        rw [replaceAux_neg old new hold c cs hsw] at heq
        cases w with
        | nil => exact ⟨c :: cs, rfl⟩
        | cons w0 wt =>
          have h' : c :: replaceAux old new 0 cs = w0 :: (wt ++ t) := by simpa using heq
          obtain ⟨rfl, h2⟩ := List.cons_eq_cons.mp h'
          have hwt : n0 ∉ wt := fun hm => hw (List.mem_cons_of_mem _ hm)
          obtain ⟨u, hu⟩ := ih cs wt t (Nat.le_of_succ_le_succ hlen) hwt h2
          exact ⟨u, by rw [hu]; rfl⟩

theorem occur_append (x : Str) : ∀ (y a b n : Str) (o0 : Char) (otl : Str),
    n = o0 :: otl → x ++ y = a ++ n ++ b → o0 ∈ x ∨ strContains y n = true := by
  induction x with
  | nil =>
    intro y a b n o0 otl hn h
    right
    rw [List.nil_append] at h
    exact (strContains_iff y n).mpr ⟨a, b, h⟩
  | cons x0 xt ih =>
    intro y a b n o0 otl hn h
    cases a with
    | nil =>
      left
      rw [List.nil_append, hn] at h
      have h' : x0 :: (xt ++ y) = o0 :: (otl ++ b) := by simpa using h
      have h0 : x0 = o0 := (List.cons_eq_cons.mp h').1
      subst h0
      exact List.mem_cons_self _ _
    | cons a0 at' =>
      have h' : x0 :: (xt ++ y) = a0 :: (at' ++ n ++ b) := by simpa using h
      obtain ⟨rfl, h2⟩ := List.cons_eq_cons.mp h'
      rcases ih y at' b n o0 otl hn h2 with hmem | hcont
      · exact Or.inl (List.mem_cons_of_mem x0 hmem)
      · exact Or.inr hcont

theorem replaceAux_no_occur (old new : Str) (o0 n0 : Char) (otl ntl : Str)
    (ho : old = o0 :: otl) (hn : new = n0 :: ntl) (h1 : o0 ∉ new) (h2 : n0 ∉ otl) :
    ∀ (N : Nat) (s : Str), s.length ≤ N →
      strContains (replaceAux old new 0 s) old = false := by
  have hold : old ≠ [] := by rw [ho]; simp
  intro N
  induction N with
  | zero =>
    intro s hlen
    have hs : s = [] := List.length_eq_zero.mp (Nat.le_zero.mp hlen)
    subst hs
    rw [replaceAux_nil old new hold, ho]
    rfl
  | succ N ih =>
    intro s hlen
    cases s with
    | nil =>
      rw [replaceAux_nil old new hold, ho]
      rfl
    | cons c cs =>
      cases hsw : strStartsWith (c :: cs) old with
      | true =>
        rw [replaceAux_pos old new hold c cs hsw]
        cases hcon : strContains (new ++ replaceAux old new 0 ((c :: cs).drop old.length)) old with
        | false => rfl
        | true =>
          exfalso
          obtain ⟨a, b, hab⟩ := (strContains_iff _ _).mp hcon
          rcases occur_append new _ a b old o0 otl ho hab with hmem | hcont
          · exact h1 hmem
          · have hdroplen : ((c :: cs).drop old.length).length ≤ N := by
              rw [List.length_drop, ho]
              simp only [List.length_cons] at hlen ⊢
              omega
            rw [ih _ hdroplen] at hcont
            exact Bool.false_ne_true hcont
      | false =>
        rw [replaceAux_neg old new hold c cs hsw]
        cases hcon : strContains (c :: replaceAux old new 0 cs) old with
        | false => rfl
        | true =>
          exfalso
          simp only [strContains, Bool.or_eq_true] at hcon
          rcases hcon with hpre | hcont
          · obtain ⟨t, ht⟩ := (strStartsWith_iff old (c :: replaceAux old new 0 cs)).mp hpre
            have ht' : c :: replaceAux old new 0 cs = o0 :: (otl ++ t) := by
              rw [← List.cons_append, ← ho]; exact ht
            obtain ⟨hco, ht2⟩ := List.cons_eq_cons.mp ht'
            obtain ⟨u, hu⟩ := replaceAux_transfer old new hold n0 ntl hn cs.length cs otl t
              le_rfl h2 ht2
            have hmatch : strStartsWith (c :: cs) old = true :=
              (strStartsWith_iff old (c :: cs)).mpr ⟨u, by rw [hco, ho, hu]; simp⟩
            rw [hsw] at hmatch
            exact Bool.false_ne_true hmatch
          · have hlt : cs.length ≤ N := by
              simp only [List.length_cons] at hlen
              omega
            rw [ih cs hlt] at hcont
            exact Bool.false_ne_true hcont

theorem replaceAux_unique (old new : Str) (hold : old ≠ []) :
    ∀ (a b : Str),
      (∀ i, strStartsWith ((a ++ old ++ b).drop i) old = true → i = a.length) →
      replaceAux old new 0 (a ++ old ++ b) = a ++ new ++ b := by
  intro a
  induction a with
  | nil =>
    intro b huniq
    simp only [List.nil_append] at huniq ⊢
    obtain ⟨o, ot, hold'⟩ : ∃ o ot, old = o :: ot := by
      cases old with
      | nil => exact absurd rfl hold
      | cons o ot => exact ⟨o, ot, rfl⟩
    have hview : old ++ b = o :: (ot ++ b) := by rw [hold']; rfl
    have hsw : strStartsWith (o :: (ot ++ b)) old = true := by
      rw [← hview]; exact strStartsWith_append old b
    rw [hview, replaceAux_pos old new hold o (ot ++ b) hsw]
    have hdrop : (o :: (ot ++ b)).drop old.length = b := by
      rw [hold']
      show (ot ++ b).drop ot.length = b
      exact List.drop_left ot b
    rw [hdrop]
    have hb : strContains b old = false := by
      cases hc : strContains b old with
      | false => rfl
      | true =>
        exfalso
        obtain ⟨u, v, huv⟩ := (strContains_iff b old).mp hc
        have hstart : strStartsWith ((old ++ b).drop (old.length + u.length)) old = true := by
          rw [huv,
            show old ++ (u ++ old ++ v) = (old ++ u) ++ (old ++ v) by simp,
            show old.length + u.length = (old ++ u).length by simp,
            List.drop_left]
          exact strStartsWith_append old v
        have h0 := huniq (old.length + u.length) hstart
        rw [hold'] at h0
        simp [List.length_cons] at h0
    rw [replaceAux_of_not_contains old new b hb]
  | cons a0 at' ih =>
    intro b huniq
    have hshape : (a0 :: at') ++ old ++ b = a0 :: (at' ++ old ++ b) := by simp
    have hsw : strStartsWith (a0 :: (at' ++ old ++ b)) old = false := by
      cases hsw2 : strStartsWith (a0 :: (at' ++ old ++ b)) old with
      | false => rfl
      | true =>
        exfalso
        have h0 := huniq 0 (by rw [hshape]; simpa using hsw2)
        simp at h0
    have huniq' : ∀ i, strStartsWith ((at' ++ old ++ b).drop i) old = true → i = at'.length := by
      intro i hi
      have h0 := huniq (i + 1) (by rw [hshape]; simpa using hi)
      simpa using h0
    rw [hshape, replaceAux_neg old new hold a0 _ hsw, ih b huniq']
    simp

/-! ### Derived characterisations of the validator, the retry wrapper and
the orchestrator -/

theorem validate_fst_eq (url : Str) :
    (validate_image_url url).1
      = (strStartsWith url HTTPS_SCHEME && !blockedHit url
          && formatOk url && !illegalHit url) := by
  unfold validate_image_url
  cases h1 : strStartsWith url HTTPS_SCHEME <;>
    cases h2 : blockedHit url <;>
      cases h3 : whitelistHit url <;>
        cases h4 : formatOk url <;>
          cases h5 : illegalHit url <;>
            simp [h1, h2, h3, h4, h5]

theorem validated_parts (url : Str) (h : (validate_image_url url).1 = true) :
    (∃ rest, url = 'h' :: rest) ∧
    ' ' ∉ url ∧ '|' ∉ url ∧ '\x7b' ∉ url ∧ '\x7d' ∉ url := by
  have hfe := validate_fst_eq url
  rw [h] at hfe
  have hcomp := hfe.symm
  rw [Bool.and_eq_true, Bool.and_eq_true, Bool.and_eq_true] at hcomp
  obtain ⟨⟨⟨hsw, _⟩, _⟩, hill⟩ := hcomp
  have hillf : illegalHit url = false := by
    cases hx : illegalHit url with
    | false => rfl
    | true => rw [hx] at hill; simp at hill
  have hnone : ∀ ch ∈ ILLEGAL_CHARACTERS, ch ∉ url := by
    intro ch hch hmem
    have hhit : illegalHit url = true := by
      unfold illegalHit
      rw [List.any_eq_true]
      exact ⟨ch, hch, by rw [List.any_eq_true]; exact ⟨ch, hmem, by simp⟩⟩
    rw [hhit] at hillf
    exact Bool.noConfusion hillf
  refine ⟨?_, hnone ' ' (by decide), hnone '|' (by decide),
    hnone '\x7b' (by decide), hnone '\x7d' (by decide)⟩
  obtain ⟨t, ht⟩ := (strStartsWith_iff HTTPS_SCHEME url).mp hsw
  exact ⟨"ttps://".data ++ t, by rw [ht]; rfl⟩

theorem replace_ph_no_occur (url : Str) (h : (validate_image_url url).1 = true) :
    ∀ s : Str, strContains (replaceAux DEFAULT_IMAGE_PLACEHOLDER url 0 s)
      DEFAULT_IMAGE_PLACEHOLDER = false := by
  obtain ⟨⟨rest, hu⟩, _, _, hbrace, _⟩ := validated_parts url h
  intro s
  exact replaceAux_no_occur DEFAULT_IMAGE_PLACEHOLDER url '\x7b' 'h'
    ("IMAGE_URL\x7d".data) rest (by decide) hu hbrace (by decide) s.length s le_rfl

theorem uniq_from_bounded (t p : Str) (k : Nat) (p0 : Char) (pt : Str) (hp : p = p0 :: pt)
    (hb : ((List.range (t.length + 1)).all fun i =>
        !(strStartsWith (t.drop i) p) || (i == k)) = true) :
    ∀ i, strStartsWith (t.drop i) p = true → i = k := by
  intro i hi
  by_cases hle : i < t.length + 1
  · have hall := List.all_eq_true.mp hb i (List.mem_range.mpr hle)
    rw [hi] at hall
    simpa using hall
  · exfalso
    have hdrop : t.drop i = [] := List.drop_eq_nil_of_le (by omega)
    rw [hdrop, hp] at hi
    simp [strStartsWith] at hi

theorem sendWithRetry_eval (transport : Nat → TransportResult) :
    sendWithRetry transport =
      if isOkResult (transport 0) then (true, 1, [])
      else if isOkResult (transport 1) then (true, 2, [0])
      else if isOkResult (transport 2) then (true, 3, [0, 1])
      else (false, 3, [0, 1]) := by
  cases h0 : isOkResult (transport 0) <;> cases h1 : isOkResult (transport 1) <;>
    cases h2 : isOkResult (transport 2) <;>
      simp [sendWithRetry, sendAttempts, h0, h1, h2, MAX_RETRIES]

theorem one_le_two_pow (k : Nat) : (1 : Rat) ≤ 2 ^ k := one_le_pow₀ (by norm_num)

theorem pop_fst_ne_nil (fs : Option Str) (l : Str) (h : (pop_first_url fs).1 = some l) :
    l ≠ [] := by
  cases fs with
  | none => simp [pop_first_url] at h
  | some content =>
    have hsimp : pop_first_url (some content)
        = match linesOf content with
          | [] => (none, some content, [])
          | current :: remaining =>
            (some current, some (newQueueContent remaining),
              [FileOp.writeTemp (newQueueContent remaining),
               FileOp.renameTempOverOriginal]) := rfl
    rw [hsimp] at h
    cases hl : linesOf content with
    | nil => rw [hl] at h; simp at h
    | cons L rest =>
      rw [hl] at h
      simp at h
      subst h
      exact (mem_linesOf content L (hl ▸ List.mem_cons_self L rest)).2.1

theorem successCount_append (o1 o2 : List DestOutcome) :
    successCount (o1 ++ o2) = successCount o1 + successCount o2 :=
  List.countP_append _ o1 o2

/-! ### The claims -/

/-- C1: on a queue file whose non-empty trimmed lines are `L :: rest`,
`pop_first_url` returns `L` and rewrites the file to contain exactly the
lines of `rest` in order — newline-joined with a trailing newline when at
least one line remains, a present-but-empty (zero-byte) file when none
remains — committing by writing a temporary sibling file and then the
single atomic rename over the original. -/
theorem C1_pop_spec (content L : Str) (rest : List Str)
    (h : linesOf content = L :: rest) :
    pop_first_url (some content)
      = (some L, some (newQueueContent rest),
         [FileOp.writeTemp (newQueueContent rest), FileOp.renameTempOverOriginal]) ∧
    linesOf (newQueueContent rest) = rest ∧
    (rest ≠ [] → newQueueContent rest = joinWith '\n' rest ++ ['\n']) ∧
    (rest = [] → newQueueContent rest = []) := by
  refine ⟨?_, ?_, ?_, ?_⟩
  · have hsimp : pop_first_url (some content)
        = match linesOf content with
          | [] => (none, some content, [])
          | current :: remaining =>
            (some current, some (newQueueContent remaining),
              [FileOp.writeTemp (newQueueContent remaining),
               FileOp.renameTempOverOriginal]) := rfl
    rw [hsimp, h]
  · exact linesOf_newQueueContent rest fun l hl =>
      mem_linesOf content l (h ▸ List.mem_cons_of_mem L hl)
  · intro hne
    simp [newQueueContent, isEmpty_false_of_ne_nil rest hne]
  · intro h0
    subst h0
    rfl

/-- C1 witness: popping a concrete two-line queue file. -/
theorem C1_pop_spec_witness :
    pop_first_url (some ['a', '\n', 'b']) =
      (some ['a'], some (newQueueContent [['b']]),
       [FileOp.writeTemp (newQueueContent [['b']]), FileOp.renameTempOverOriginal]) :=
  (C1_pop_spec ['a', '\n', 'b'] ['a'] [['b']] (by decide)).1

/-- C4: `pop_first_url` on an absent file returns no identifier and leaves
the file absent with no file operation; on a file whose lines are all
empty after trimming it returns no identifier and leaves the file's
content untouched (no rewrite). -/
theorem C4_pop_absent_or_blank :
    pop_first_url none = (none, none, []) ∧
    ∀ content : Str, linesOf content = [] →
      pop_first_url (some content) = (none, some content, []) := by
  refine ⟨rfl, ?_⟩
  intro content h
  have hsimp : pop_first_url (some content)
      = match linesOf content with
        | [] => (none, some content, [])
        | current :: remaining =>
          (some current, some (newQueueContent remaining),
            [FileOp.writeTemp (newQueueContent remaining),
             FileOp.renameTempOverOriginal]) := rfl
  rw [hsimp, h]

/-- C4 witness: a file of blanks and empty lines is returned untouched. -/
theorem C4_pop_absent_or_blank_witness :
    pop_first_url (some [' ', '\n', '\t']) = (none, some [' ', '\n', '\t'], []) :=
  C4_pop_absent_or_blank.2 [' ', '\n', '\t'] (by decide)

/-- C5: the validator checks scheme, blocklist, allowlist, format and
characters in that order, short-circuiting: a non-HTTPS identifier gets
the scheme reason before any other rule; any identifier containing a
blocked-domain substring is invalid; and the allowlist never affects
validity (its failure only warns), as the closed-form characterisation of
the result flag shows. -/
theorem C5_validate_order (url : Str) :
    (strStartsWith url HTTPS_SCHEME = false →
      validate_image_url url = (false, MSG_SCHEME, [])) ∧
    (blockedHit url = true → (validate_image_url url).1 = false) ∧
    ((validate_image_url url).1
      = (strStartsWith url HTTPS_SCHEME && !blockedHit url
          && formatOk url && !illegalHit url)) := by
  refine ⟨?_, ?_, validate_fst_eq url⟩
  · intro h
    unfold validate_image_url
    rw [if_pos h]
  · intro h
    rw [validate_fst_eq url, h]
    simp

/-- C5 witness: a non-HTTPS URL is rejected with the scheme reason, and a
blocked-domain URL is rejected. -/
theorem C5_validate_order_witness :
    validate_image_url ("http://a.alicdn.com/x.jpg".data) = (false, MSG_SCHEME, []) ∧
    (validate_image_url ("https://github.com/x.png".data)).1 = false :=
  ⟨(C5_validate_order ("http://a.alicdn.com/x.jpg".data)).1 (by decide),
   (C5_validate_order ("https://github.com/x.png".data)).2.1 (by decide)⟩

/-- C10: a URL accepted by the validator contains no space, pipe or brace
character; consequently substituting it for the default placeholder (which
contains a brace) in any template leaves no occurrence of the placeholder,
however many times the placeholder occurred. -/
theorem C10_validated_substitution (url : Str)
    (h : (validate_image_url url).1 = true) :
    (' ' ∉ url ∧ '|' ∉ url ∧ '\x7b' ∉ url ∧ '\x7d' ∉ url) ∧
    ∀ template : Str,
      strContains (pyReplace template DEFAULT_IMAGE_PLACEHOLDER url)
        DEFAULT_IMAGE_PLACEHOLDER = false := by
  obtain ⟨hh, hsp, hpipe, hob, hcb⟩ := validated_parts url h
  exact ⟨⟨hsp, hpipe, hob, hcb⟩, fun template => replace_ph_no_occur url h template⟩

/-- C10 witness: substituting a concrete validated URL into a template with
two placeholder occurrences leaves none. -/
theorem C10_validated_substitution_witness :
    strContains
      (pyReplace ("a\x7bIMAGE_URL\x7d-\x7bIMAGE_URL\x7db".data)
        DEFAULT_IMAGE_PLACEHOLDER ("https://a.alicdn.com/a.jpg".data))
      DEFAULT_IMAGE_PLACEHOLDER = false :=
  (C10_validated_substitution ("https://a.alicdn.com/a.jpg".data) (by decide)).2
    ("a\x7bIMAGE_URL\x7d-\x7bIMAGE_URL\x7db".data)

/-- C2: the retry wrapper invokes the transport at most `MAX_RETRIES = 3`
times; if the first `N` attempts fail (`N < 3`) and attempt `N + 1`
returns a dict with status code 0, it returns true after exactly `N + 1`
invocations, sleeping after each failed non-final attempt `k` for
`INITIAL_RETRY_DELAY * 2 ^ k + jitter` seconds; if all 3 attempts fail it
returns false after exactly 3 invocations with no sleep after the final
attempt; and the backoff delays grow from one sleep to the next
(weakly for jitters in `[0, 1]`, strictly for jitters in `[0, 1)`, the
range of `random.uniform(0, 1)`). -/
theorem C2_retry_behavior (transport : Nat → TransportResult) (jitter : Nat → Rat) :
    (sendWithRetry transport).2.1 ≤ MAX_RETRIES ∧
    (∀ N : Nat, N < MAX_RETRIES → (∀ k, k < N → isOkResult (transport k) = false) →
      isOkResult (transport N) = true →
      sendWithRetry transport = (true, N + 1, List.range N)) ∧
    ((∀ k, k < MAX_RETRIES → isOkResult (transport k) = false) →
      sendWithRetry transport = (false, MAX_RETRIES, [0, 1])) ∧
    ((∀ k, 0 ≤ jitter k ∧ jitter k ≤ 1) →
      ∀ k, retryDelay jitter k ≤ retryDelay jitter (k + 1)) ∧
    ((∀ k, 0 ≤ jitter k ∧ jitter k < 1) →
      ∀ k, retryDelay jitter k < retryDelay jitter (k + 1)) := by
  refine ⟨?_, ?_, ?_, ?_, ?_⟩
  · rw [sendWithRetry_eval]
    cases h0 : isOkResult (transport 0) <;> cases h1 : isOkResult (transport 1) <;>
      cases h2 : isOkResult (transport 2) <;> simp [MAX_RETRIES]
  · intro N hN hfail hsucc
    unfold MAX_RETRIES at hN
    interval_cases N
    · rw [sendWithRetry_eval, if_pos hsucc]
      rfl
    · rw [sendWithRetry_eval, if_neg (by simp [hfail 0 (by decide)]),
        if_pos hsucc]
      rfl
    · rw [sendWithRetry_eval, if_neg (by simp [hfail 0 (by decide)]),
        if_neg (by simp [hfail 1 (by decide)]), if_pos hsucc]
      rfl
  · intro hfail
    rw [sendWithRetry_eval, if_neg (by simp [hfail 0 (by decide)]),
      if_neg (by simp [hfail 1 (by decide)]),
      if_neg (by simp [hfail 2 (by decide)])]
    rfl
  · intro hj k
    have h1 := (hj k).1
    have h2 := (hj k).2
    have h3 := (hj (k + 1)).1
    have hpow : (2 : Rat) ^ (k + 1) = 2 * 2 ^ k := by ring
    have hle := one_le_two_pow k
    unfold retryDelay INITIAL_RETRY_DELAY
    rw [hpow]
    linarith
  · intro hj k
    have h2 := (hj k).2
    have h3 := (hj (k + 1)).1
    have hpow : (2 : Rat) ^ (k + 1) = 2 * 2 ^ k := by ring
    have hle := one_le_two_pow k
    unfold retryDelay INITIAL_RETRY_DELAY
    rw [hpow]
    linarith

/-- C2 witness: a transport failing once then succeeding is invoked twice
with one sleep, and a concrete jitter draw yields strictly growing delays. -/
theorem C2_retry_behavior_witness :
    sendWithRetry
        (fun k => if k = 0 then TransportResult.raised else TransportResult.dictRes 0)
      = (true, 2, [0]) ∧
    retryDelay (fun _ => 1 / 2) 0 < retryDelay (fun _ => 1 / 2) 1 := by
  constructor
  · exact (C2_retry_behavior
        (fun k => if k = 0 then TransportResult.raised else TransportResult.dictRes 0)
        (fun _ => 1 / 2)).2.1 1 (by decide)
      (fun k hk => by interval_cases k; decide) (by decide)
  · exact (C2_retry_behavior
        (fun k => if k = 0 then TransportResult.raised else TransportResult.dictRes 0)
        (fun _ => 1 / 2)).2.2.2.2 (fun k => by norm_num) 0

/-- C3: the orchestrator exits with code 0 whenever it runs the whole
destination loop, regardless of how many sends failed, and exits with
code 1 exactly when no identifier was popped, the configuration load
failed (modelling an exception reaching the top-level handler), or the
validated destination list is empty. -/
theorem C3_main_exit_codes (fs : Option Str) (cfg : Except Unit (List DestOutcome)) :
    ((mainRun (pop_first_url fs).1 cfg).1 = 0 ∨ (mainRun (pop_first_url fs).1 cfg).1 = 1) ∧
    ((mainRun (pop_first_url fs).1 cfg).1 = 1 ↔
      ((pop_first_url fs).1 = none ∨ cfg = Except.error () ∨ cfg = Except.ok [])) ∧
    (∀ outs : List DestOutcome, outs ≠ [] → (pop_first_url fs).1 ≠ none →
      (mainRun (pop_first_url fs).1 (Except.ok outs)).1 = 0) := by
  cases himg : (pop_first_url fs).1 with
  | none =>
    refine ⟨Or.inr rfl, ?_, ?_⟩
    · simp [mainRun]
    · intro outs _ hne
      exact absurd rfl hne
  | some l =>
    have hne := pop_fst_ne_nil fs l himg
    have hie := isEmpty_false_of_ne_nil l hne
    refine ⟨?_, ?_, ?_⟩
    · cases cfg with
      | error e => exact Or.inr (by simp [mainRun, hie])
      | ok cfgList =>
        cases cfgList with
        | nil => exact Or.inr (by simp [mainRun, hie])
        | cons o os => exact Or.inl (by simp [mainRun, hie])
    · cases cfg with
      | error e => simp [mainRun, hie]
      | ok cfgList =>
        cases cfgList with
        | nil => simp [mainRun, hie]
        | cons o os => simp [mainRun, hie]
    · intro outs houts _
      cases outs with
      | nil => exact absurd rfl houts
      | cons o os => simp [mainRun, hie]

/-- C3 witness: with a one-line queue and a single destination whose send
fails, the run still exits 0. -/
theorem C3_main_exit_codes_witness :
    (mainRun (pop_first_url (some ['a'])).1 (Except.ok [DestOutcome.sendFail])).1 = 0 :=
  (C3_main_exit_codes (some ['a'])
      (Except.ok [DestOutcome.sendFail])).2.2 [DestOutcome.sendFail]
    (by decide) (by decide)

/-- C6 counterexample: with the identifier equal to the placeholder itself
and a template containing the placeholder exactly once, the composed
result still contains the placeholder, so composition does not always
remove every occurrence as the claim states for arbitrary identifiers. -/
theorem C6_compose_counterexample :
    occurCount DEFAULT_IMAGE_PLACEHOLDER DEFAULT_IMAGE_PLACEHOLDER = 1 ∧
    strContains
      (compose DEFAULT_IMAGE_PLACEHOLDER DEFAULT_IMAGE_PLACEHOLDER
        DEFAULT_IMAGE_PLACEHOLDER)
      DEFAULT_IMAGE_PLACEHOLDER = true := by decide

/-- C6 (amended): for identifiers accepted by the validator the claim
holds: if the template is `a ++ placeholder ++ b` with its only
placeholder occurrence at position `|a|`, composition yields
`a ++ identifier ++ b` — the identifier sits at the placeholder's
position — and the result contains no occurrence of the placeholder; and
for any template not containing the placeholder the result is the
template followed by the fixed Markdown image block around the
identifier. -/
theorem C6_compose_amended (a b url : Str)
    (hv : (validate_image_url url).1 = true)
    (huniq : ((List.range ((a ++ DEFAULT_IMAGE_PLACEHOLDER ++ b).length + 1)).all fun i =>
        !(strStartsWith ((a ++ DEFAULT_IMAGE_PLACEHOLDER ++ b).drop i)
            DEFAULT_IMAGE_PLACEHOLDER)
          || (i == a.length)) = true) :
    compose (a ++ DEFAULT_IMAGE_PLACEHOLDER ++ b) url DEFAULT_IMAGE_PLACEHOLDER
      = a ++ url ++ b ∧
    strContains (a ++ url ++ b) DEFAULT_IMAGE_PLACEHOLDER = false ∧
    (∀ t : Str, strContains t DEFAULT_IMAGE_PLACEHOLDER = false →
      compose t url DEFAULT_IMAGE_PLACEHOLDER
        = t ++ IMAGE_BLOCK_OPEN ++ url ++ IMAGE_BLOCK_CLOSE) := by
  have hph : DEFAULT_IMAGE_PLACEHOLDER ≠ [] := by decide
  have huniq' := uniq_from_bounded (a ++ DEFAULT_IMAGE_PLACEHOLDER ++ b)
    DEFAULT_IMAGE_PLACEHOLDER a.length '\x7b' ("IMAGE_URL\x7d".data) (by decide) huniq
  have hrepl : replaceAux DEFAULT_IMAGE_PLACEHOLDER url 0
      (a ++ DEFAULT_IMAGE_PLACEHOLDER ++ b) = a ++ url ++ b :=
    replaceAux_unique DEFAULT_IMAGE_PLACEHOLDER url hph a b huniq'
  have hcomp : compose (a ++ DEFAULT_IMAGE_PLACEHOLDER ++ b) url DEFAULT_IMAGE_PLACEHOLDER
      = a ++ url ++ b := by
    unfold compose
    rw [if_pos (strContains_of_split a DEFAULT_IMAGE_PLACEHOLDER b)]
    exact hrepl
  refine ⟨hcomp, ?_, ?_⟩
  · rw [← hrepl]
    exact replace_ph_no_occur url hv _
  · intro t ht
    unfold compose
    rw [if_neg (by simp [ht])]

/-- C6 witness: composing a concrete template with one placeholder and a
validated URL puts the URL at the placeholder's position and leaves no
placeholder. -/
theorem C6_compose_amended_witness :
    compose ("ab".data ++ DEFAULT_IMAGE_PLACEHOLDER ++ "cd".data)
        ("https://a.alicdn.com/a.jpg".data) DEFAULT_IMAGE_PLACEHOLDER
      = "ab".data ++ "https://a.alicdn.com/a.jpg".data ++ "cd".data ∧
    strContains ("ab".data ++ "https://a.alicdn.com/a.jpg".data ++ "cd".data)
      DEFAULT_IMAGE_PLACEHOLDER = false :=
  ⟨(C6_compose_amended ("ab".data) ("cd".data) ("https://a.alicdn.com/a.jpg".data)
      (by decide) (by decide)).1,
   (C6_compose_amended ("ab".data) ("cd".data) ("https://a.alicdn.com/a.jpg".data)
      (by decide) (by decide)).2.1⟩

/-- C7: when the validator rejects the identifier,
`send_markdown_with_image` returns false at once with zero transport
invocations and no payload handed to the retry wrapper; such a failed
send counts as a per-destination failure and the orchestrator still runs
to completion with exit code 0. -/
theorem C7_invalid_skips_send (title content img_url placeholder : Str)
    (at_mobiles : Option (List Str)) (is_at_all : Bool)
    (transport : Nat → TransportResult)
    (h : (validate_image_url img_url).1 = false) :
    send_markdown_with_image title content img_url placeholder at_mobiles is_at_all
        transport = (false, 0, none) ∧
    (∀ pre post : List DestOutcome,
      successCount (pre ++ DestOutcome.sendFail :: post)
        = successCount pre + successCount post) ∧
    (∀ (c : Char) (u : Str) (pre post : List DestOutcome),
      (mainRun (some (c :: u)) (Except.ok (pre ++ DestOutcome.sendFail :: post))).1
        = 0) := by
  refine ⟨?_, ?_, ?_⟩
  · unfold send_markdown_with_image
    rw [if_neg (by simp [h])]
  · intro pre post
    rw [show pre ++ DestOutcome.sendFail :: post = pre ++ [DestOutcome.sendFail] ++ post
        by simp]
    rw [successCount_append, successCount_append]
    have hmid : successCount [DestOutcome.sendFail] = 0 := rfl
    rw [hmid, Nat.add_zero]
  · intro c u pre post
    have hne : pre ++ DestOutcome.sendFail :: post ≠ [] := by simp
    simp [mainRun, isEmpty_false_of_ne_nil _ hne]

/-- C7 witness: a non-HTTPS identifier makes the send fail with no
transport call. -/
theorem C7_invalid_skips_send_witness :
    send_markdown_with_image [] [] "http://x.jpg".data DEFAULT_IMAGE_PLACEHOLDER
      none false (fun _ => TransportResult.raised) = (false, 0, none) :=
  (C7_invalid_skips_send [] [] "http://x.jpg".data DEFAULT_IMAGE_PLACEHOLDER
    none false (fun _ => TransportResult.raised) (by decide)).1

/-- C8 counterexample: with `is_at_all = true` and a non-empty mobile
list, `send_text` hands the mobile list on unchanged — it is not
suppressed — while `send_markdown_with_image` passes `none`; so mention
handling is not identical and mention-all does not suppress the list in
both operations. -/
theorem C8_mention_counterexample :
    (send_text [] (some [['1']]) true (fun _ => TransportResult.raised)).2.2
      = ⟨AT_ALL_TOKEN, some [['1']], true⟩ ∧
    (send_markdown_with_image [] [] "https://a.alicdn.com/x.jpg".data
        DEFAULT_IMAGE_PLACEHOLDER (some [['1']]) true
        (fun _ => TransportResult.raised)).2.2
      = some ⟨[], compose [] "https://a.alicdn.com/x.jpg".data DEFAULT_IMAGE_PLACEHOLDER,
          none, true⟩ := by
  constructor
  · rfl
  · decide

/-- C8 (amended): `send_markdown_with_image` suppresses the explicit
mobile list when mention-all is set (the delegated payload carries
`none`), while `send_text` passes the list through unchanged (adding its
mention markup to the message text instead); the two delegations agree on
the mobile list exactly when mention-all is unset or the list is absent. -/
theorem C8_mention_amended (title content url msg : Str)
    (at_mobiles : Option (List Str)) (is_at_all : Bool)
    (transport : Nat → TransportResult)
    (hv : (validate_image_url url).1 = true) :
    (send_markdown_with_image title content url DEFAULT_IMAGE_PLACEHOLDER at_mobiles
        is_at_all transport).2.2
      = some ⟨title, compose content url DEFAULT_IMAGE_PLACEHOLDER,
          if is_at_all then none else at_mobiles, is_at_all⟩ ∧
    (send_text msg at_mobiles is_at_all transport).2.2
      = ⟨send_text_final_msg msg at_mobiles is_at_all, at_mobiles, is_at_all⟩ ∧
    ((if is_at_all then (none : Option (List Str)) else at_mobiles) = at_mobiles ↔
      (is_at_all = false ∨ at_mobiles = none)) := by
  refine ⟨?_, rfl, ?_⟩
  · unfold send_markdown_with_image
    rw [if_pos (by simp [hv])]
  · cases is_at_all with
    | false => simp
    | true =>
      cases at_mobiles with
      | none => simp
      | some ms => simp

/-- C8 witness: at a concrete validated URL with mention-all set, the
markdown payload suppresses the list and the text payload does not. -/
theorem C8_mention_amended_witness :
    (send_markdown_with_image [] [] "https://a.alicdn.com/x.jpg".data
        DEFAULT_IMAGE_PLACEHOLDER (some [['1']]) true
        (fun _ => TransportResult.raised)).2.2
      = some ⟨[], compose [] "https://a.alicdn.com/x.jpg".data DEFAULT_IMAGE_PLACEHOLDER,
          if true then none else some [['1']], true⟩ ∧
    (send_text [] (some [['1']]) true (fun _ => TransportResult.raised)).2.2
      = ⟨send_text_final_msg [] (some [['1']]) true, some [['1']], true⟩ :=
  ⟨(C8_mention_amended [] [] "https://a.alicdn.com/x.jpg".data [] (some [['1']]) true
      (fun _ => TransportResult.raised) (by decide)).1,
   (C8_mention_amended [] [] "https://a.alicdn.com/x.jpg".data [] (some [['1']]) true
      (fun _ => TransportResult.raised) (by decide)).2.1⟩

/-- C9 counterexample: a destination whose iteration raised (the Delivery
Client constructor rejecting the webhook is caught by the handler that
logs and `continue`s) produces no pacing sleep, contradicting the claim
that a pacing sleep follows every destination including construction
failures. -/
theorem C9_pacing_counterexample :
    LoopEvent.paceSleep ∉ destEvents DestOutcome.raiseErr := by
  intro h
  rw [show destEvents DestOutcome.raiseErr = [LoopEvent.errorLogged] from rfl] at h
  simp at h

/-- C9 (amended): the loop's trace is the concatenation of each
destination's events in order; after a destination whose send ran
(returning true or false) the iteration ends with a pacing sleep drawn
from the fixed range `[PUSH_INTERVAL_MIN, PUSH_INTERVAL_MAX] = [1, 3]`
seconds, but a destination whose iteration raised (e.g. client
construction failure) is skipped via `continue` with no pacing sleep. -/
theorem C9_pacing_amended :
    (∀ (pre post : List DestOutcome) (o : DestOutcome),
      loopTrace (pre ++ o :: post)
        = loopTrace pre ++ destEvents o ++ loopTrace post) ∧
    destEvents DestOutcome.sendOk = [LoopEvent.sendResult true, LoopEvent.paceSleep] ∧
    destEvents DestOutcome.sendFail
      = [LoopEvent.sendResult false, LoopEvent.paceSleep] ∧
    destEvents DestOutcome.raiseErr = [LoopEvent.errorLogged] ∧
    PUSH_INTERVAL_MIN = 1 ∧ PUSH_INTERVAL_MAX = 3 := by
  refine ⟨?_, rfl, rfl, rfl, rfl, rfl⟩
  intro pre post o
  unfold loopTrace
  rw [List.map_append, List.map_cons, List.flatten_append, List.flatten_cons]
  exact (List.append_assoc _ _ _).symm

end DingPush
